import Mathlib

/-!
# virtual-kbd: encoding and sequencing of synthetic key events

A shallow embedding of `src/virtual-kbd.c`.

* A C string is the list of its bytes before the terminating NUL; every byte of a
  well-formed string is in `1..255` (`CStr`).  Reading one position past the end of the
  list reads the terminator, `0`.
* `unsigned int`, `uint32_t` and `enum Modifier` values are natural numbers; the only
  place where 32-bit wrap-around matters is `ms * 1000` in the `sleep` operation.
* The process state is a `World`: the requests already sent to the virtual keyboard, the
  monotonic clock, standard input, the diagnostics written to standard error and the
  pauses taken.  `exit` is modelled by the control outcome `Ctl.exited`.
-/

namespace VirtualKbd

/-! ## Strings and libc -/

/-- The bytes of a string literal. -/
def str (s : String) : List Nat := s.toList.map Char.toNat

/-- A well-formed C string: no NUL byte inside, every element is a byte. -/
def CStr (s : List Nat) : Prop := ∀ b ∈ s, 0 < b ∧ b < 256

instance (s : List Nat) : Decidable (CStr s) := by
  unfold CStr; exact inferInstance

/-- The function `tolower` of the C locale: `'A'..'Z'` go to `'a'..'z'`. -/
def tolower (c : Nat) : Nat := if 65 ≤ c ∧ c ≤ 90 then c + 32 else c

/-- The function `strcmp`: difference of the first pair of bytes that differ, the end of a
string reading as the terminator `0`. -/
def strcmp : List Nat → List Nat → Int
  | [], [] => 0
  | [], b :: _ => 0 - (b : Int)
  | a :: _, [] => (a : Int) - 0
  | a :: as, b :: bs => if a = b then strcmp as bs else (a : Int) - (b : Int)

/-- The function `strcasecmp`: as `strcmp`, on the lower-cased bytes. -/
def strcasecmp : List Nat → List Nat → Int
  | [], [] => 0
  | [], b :: _ => 0 - (tolower b : Int)
  | a :: _, [] => (tolower a : Int) - 0
  | a :: as, b :: bs =>
    if tolower a = tolower b then strcasecmp as bs else (tolower a : Int) - (tolower b : Int)

/-- The delimiter of `parse_kbd`, the byte `'-'`. -/
def delim : Nat := 45

/-- One call of `strtok(_, "-")` on the text that is left: skip the delimiters in front; if
nothing is left there is no token (`NULL`), otherwise the token is the run of bytes up to
the next delimiter, and the text saved for the next call starts after that delimiter. -/
def strtok (s : List Nat) : Option (List Nat × List Nat) :=
  match s.dropWhile (fun c => c == delim) with
  | [] => none
  | c :: cs =>
    some ((c :: cs).takeWhile (fun c => c != delim),
          ((c :: cs).dropWhile (fun c => c != delim)).drop 1)

/-- The function `isspace` of the C locale. -/
def isspace (c : Nat) : Bool := c == 32 || (9 ≤ c && c ≤ 13)

/-- The function `isdigit`. -/
def isdigit (c : Nat) : Bool := 48 ≤ c && c ≤ 57

/-- The function `atoi`: optional white space, optional sign, decimal digits. -/
def atoi (s : List Nat) : Int :=
  let s1 := s.dropWhile isspace
  let digits (r : List Nat) : Int :=
    (r.takeWhile isdigit).foldl (fun a d => 10 * a + ((d : Int) - 48)) 0
  match s1 with
  | 45 :: r => - digits r
  | 43 :: r => digits r
  | r => digits r

/-! ## Constants and tables -/

/-- The flag `SHIFT` of the `Charmap` entries. -/
def SHIFT : Nat := 0x100

/-- The value `MOD_NONE` of `enum Modifier`. -/
def MOD_NONE : Nat := 0x0
/-- The value `MOD_SHIFT` of `enum Modifier`. -/
def MOD_SHIFT : Nat := 0x1
/-- The value `MOD_CONTROL` of `enum Modifier`. -/
def MOD_CONTROL : Nat := 0x4
/-- The value `MOD_ALT` of `enum Modifier`. -/
def MOD_ALT : Nat := 0x8
/-- The value `MOD_SUPER` of `enum Modifier`. -/
def MOD_SUPER : Nat := 0x40

/-- The structure `struct wkey`: a key code and a modifier mask. -/
structure wkey where
  key : Nat
  mod : Nat
  deriving DecidableEq, Repr

/-- The table `Mod_names`. -/
def Mod_names : List (List Nat × Nat) :=
  [ (str "S", MOD_SHIFT),
    (str "C", MOD_CONTROL),
    (str "H", MOD_SUPER),
    (str "M", MOD_ALT) ]

/-- The function `name_to_mod`: the first entry of `Mod_names` whose name compares equal
ignoring case, `MOD_NONE` when there is none. -/
def name_to_mod (name : List Nat) : Nat :=
  match Mod_names.find? (fun e => strcasecmp e.1 name == 0) with
  | some e => e.2
  | none => MOD_NONE

/-- The designated initialisers of `Charmap`, as (index, value) pairs in source order. -/
def Charmap_init : List (Nat × Nat) :=
  [ (0x1b, 1), -- esc
    (49, 2), (33, SHIFT ||| 2),    -- '1' '!'
    (50, 3), (64, SHIFT ||| 3),    -- '2' '@'
    (51, 4), (35, SHIFT ||| 4),    -- '3' '#'
    (52, 5), (36, SHIFT ||| 5),    -- '4' '$'
    (53, 6), (37, SHIFT ||| 6),    -- '5' '%'
    (54, 7), (94, SHIFT ||| 7),    -- '6' '^'
    (55, 8), (38, SHIFT ||| 8),    -- '7' '&'
    (56, 9), (42, SHIFT ||| 9),    -- '8' '*'
    (57, 10), (40, SHIFT ||| 10),  -- '9' '('
    (48, 11), (41, SHIFT ||| 11),  -- '0' ')'
    (45, 12), (95, SHIFT ||| 12),  -- '-' '_'
    (61, 13), (43, SHIFT ||| 13),  -- '=' '+'
    (0x08, 14),
    (9, 15),                       -- '\t'
    (113, 16), (81, SHIFT ||| 16), -- 'q' 'Q'
    (119, 17), (87, SHIFT ||| 17), -- 'w' 'W'
    (101, 18), (69, SHIFT ||| 18), -- 'e' 'E'
    (114, 19), (82, SHIFT ||| 19), -- 'r' 'R'
    (116, 20), (84, SHIFT ||| 20), -- 't' 'T'
    (121, 21), (89, SHIFT ||| 21), -- 'y' 'Y'
    (117, 22), (85, SHIFT ||| 22), -- 'u' 'U'
    (105, 23), (73, SHIFT ||| 23), -- 'i' 'I'
    (111, 24), (79, SHIFT ||| 24), -- 'o' 'O'
    (112, 25), (80, SHIFT ||| 25), -- 'p' 'P'
    (91, 26), (123, SHIFT ||| 26), -- '[' and the opening brace
    (93, 27), (125, SHIFT ||| 27), -- ']' and the closing brace
    (10, 28),                      -- '\n'
    (97, 30), (65, SHIFT ||| 30),  -- 'a' 'A'
    (115, 31), (83, SHIFT ||| 31), -- 's' 'S'
    (100, 32), (68, SHIFT ||| 32), -- 'd' 'D'
    (102, 33), (70, SHIFT ||| 33), -- 'f' 'F'
    (103, 34), (71, SHIFT ||| 34), -- 'g' 'G'
    (104, 35), (72, SHIFT ||| 35), -- 'h' 'H'
    (106, 36), (74, SHIFT ||| 36), -- 'j' 'J'
    (107, 37), (75, SHIFT ||| 37), -- 'k' 'K'
    (108, 38), (76, SHIFT ||| 38), -- 'l' 'L'
    (59, 39), (58, SHIFT ||| 39),  -- ';' ':'
    (39, 40), (34, SHIFT ||| 40),  -- the apostrophe and the double quote
    (96, 41), (126, SHIFT ||| 41), -- the backquote and '~'
    (92, 43), (124, SHIFT ||| 43), -- the backslash and '|'
    (122, 44), (90, SHIFT ||| 44), -- 'z' 'Z'
    (120, 45), (88, SHIFT ||| 45), -- 'x' 'X'
    (99, 46), (67, SHIFT ||| 46),  -- 'c' 'C'
    (118, 47), (86, SHIFT ||| 47), -- 'v' 'V'
    (98, 48), (66, SHIFT ||| 48),  -- 'b' 'B'
    (110, 49), (78, SHIFT ||| 49), -- 'n' 'N'
    (109, 50), (77, SHIFT ||| 50), -- 'm' 'M'
    (44, 51), (60, SHIFT ||| 51),  -- ',' '<'
    (46, 52), (62, SHIFT ||| 52),  -- '.' '>'
    (47, 53), (63, SHIFT ||| 53),  -- '/' '?'
    (32, 57) ]                     -- ' '

/-- The table `Charmap[256]`: the value of the designated initialiser at index `c`, and 0
at every index that has none. -/
def Charmap (c : Nat) : Nat := (Charmap_init.lookup c).getD 0

/-- The table `Keymap`. -/
def Keymap : List (List Nat × Nat) :=
  [ (str "esc", 1),
    (str "F1", 59),
    (str "F10", 68),
    (str "F11", 87),
    (str "F12", 88) ]

/-- The function `keyname_to_keycode`: the code of the first entry of `Keymap` whose name
compares equal ignoring case, 0 when there is none. -/
def keyname_to_keycode (name : List Nat) : Nat :=
  match Keymap.find? (fun e => strcasecmp e.1 name == 0) with
  | some e => e.2
  | none => 0

/-! ## The process state -/

/-- The states of `enum wl_keyboard_key_state`. -/
inductive KeyState
  | released
  | pressed
  deriving DecidableEq, Repr

/-- A request sent to the virtual keyboard: `zwp_virtual_keyboard_v1_modifiers` or
`zwp_virtual_keyboard_v1_key`, with its arguments. -/
inductive Request
  | modifiers (mods_depressed mods_latched mods_locked group : Nat)
  | key (time key : Nat) (state : KeyState)
  deriving DecidableEq, Repr

/-- The result of one `read(0, buf, 100)`: bytes placed in the buffer (the return value is
their number), end of stream (return value 0), or a failure (return value -1). -/
inductive ReadResult
  | bytes (buf : List Nat)
  | eof
  | fail
  deriving DecidableEq, Repr

/-- The return value of `read`. -/
def ReadResult.rv : ReadResult → Int
  | .bytes buf => (buf.length : Int)
  | .eof => 0
  | .fail => -1

/-- The buffer after `read`. -/
def ReadResult.buf : ReadResult → List Nat
  | .bytes buf => buf
  | .eof => []
  | .fail => []

deriving instance DecidableEq for Except

/-- A line written to standard error, by `error` or by `debug_log`. -/
inductive Diag
  | kbd_invalid_mode_code (ptr : List Nat)
  | usage
  | unexpected_error_of_pipe
  | check_help
  | invalid_subcommand (cmd : List Nat)
  | typing (c map : Nat)
  | sending (key mod : Nat)
  deriving DecidableEq, Repr

/-- The exit status `EXIT_SUCCESS`. -/
def EXIT_SUCCESS : Nat := 0
/-- The exit status `EXIT_FAILURE`. -/
def EXIT_FAILURE : Nat := 1

/-- How a function left control: it returned, or the process exited with a status. -/
inductive Ctl
  | returned
  | exited (status : Nat)
  deriving DecidableEq, Repr

/-- The state of the process and of its environment.  `typed` is a record of the
arguments of the calls of `do_type`, kept to state what key events were produced; the
program has no such variable. -/
structure World where
  /-- requests sent to the virtual keyboard, oldest first -/
  sent : List Request
  /-- arguments of the calls of `do_type`, oldest first -/
  typed : List wkey
  /-- the value of the `n`-th reading of the monotonic clock, in milliseconds -/
  now : Nat → Nat
  /-- number of clock readings taken -/
  ticks : Nat
  /-- results of the coming calls of `read` on standard input -/
  stdin : List ReadResult
  /-- lines written to standard error, oldest first -/
  stderr : List Diag
  /-- arguments of the calls of `usleep`, oldest first -/
  slept : List Nat

/-- A world in which nothing has happened yet. -/
def World.init (now : Nat → Nat) (stdin : List ReadResult) : World :=
  { sent := [], typed := [], now := now, ticks := 0, stdin := stdin, stderr := [], slept := [] }

/-- Send a request to the virtual keyboard. -/
def World.send (w : World) (r : Request) : World := { w with sent := w.sent ++ [r] }

/-- The function `timestamp`: a reading of the monotonic clock. -/
def timestamp (w : World) : Nat × World := (w.now w.ticks, { w with ticks := w.ticks + 1 })

/-- The macro `error`: a line on standard error, then `exit(EXIT_FAILURE)`. -/
def error (w : World) (d : Diag) : World × Ctl :=
  ({ w with stderr := w.stderr ++ [d] }, Ctl.exited EXIT_FAILURE)

/-- The macro `debug_log` (`DEBUG` is defined): a line on standard error. -/
def debug_log (w : World) (d : Diag) : World := { w with stderr := w.stderr ++ [d] }

/-! ## The event sequencer -/

/-- The function `do_type`. -/
def do_type (w : World) (key : wkey) : World :=
  let w0 := { w with typed := w.typed ++ [key] }
  let w1 := w0.send (Request.modifiers key.mod 0 0 0)
  let w2 :=
    if key.key ≠ 0 then
      let t1 := timestamp w1
      let w11 := t1.2.send (Request.key t1.1 key.key KeyState.pressed)
      let t2 := timestamp w11
      t2.2.send (Request.key t2.1 key.key KeyState.released)
    else w1
  if key.mod ≠ MOD_NONE then w2.send (Request.modifiers 0 0 0 0) else w2

/-! ## The chord parser -/

/-- The body of the `while (ptr != NULL)` loop of `parse_kbd`, `fuel` bounding the number
of iterations: `ptr` is the current token, `save` the text `strtok` has left, `key` the
event built so far.  The result is `none` when the fuel runs out, `Except.error` when the
loop ends in `error`, and the returned event otherwise. -/
def parse_kbd_loop : Nat → List Nat → List Nat → wkey → Option (Except Diag wkey)
  | 0, _, _, _ => none
  | fuel + 1, ptr, save, key =>
    match strtok save with
    | none =>
      some (Except.ok { key with
        key := if ptr.getD 1 0 = 0 then Charmap (ptr.getD 0 0 % 256)
               else keyname_to_keycode ptr })
    | some (next, save1) =>
      let mod_code := name_to_mod ptr
      if mod_code = MOD_NONE then some (Except.error (Diag.kbd_invalid_mode_code ptr))
      else parse_kbd_loop fuel next save1 { key with mod := key.mod ||| mod_code }

/-- The function `parse_kbd`.  Every iteration of its loop consumes at least one byte of
the text, so its length bounds the number of iterations. -/
def parse_kbd (kbd : List Nat) : Option (Except Diag wkey) :=
  match strtok kbd with
  | none => some (Except.ok { key := 0, mod := MOD_NONE })
  | some (ptr, save) => parse_kbd_loop (kbd.length + 1) ptr save { key := 0, mod := MOD_NONE }

/-! ## The dispatcher -/

/-- The function `print_help`: the usage text goes through `error`. -/
def print_help (w : World) : World × Ctl := error w Diag.usage

/-- The `for` loop of the `pipe` operation over one buffer: `i` runs over `0 .. rv-1`. -/
def pipe_for (key : wkey) : List Nat → World → World
  | [], w => w
  | b :: bs, w => pipe_for key bs (do_type w { key with key := b % 256 })

/-- The `while (1)` loop of the `pipe` operation, over the results of the coming reads; when
the list of results is used up the stream is at its end. -/
def pipe_while (key : wkey) : List ReadResult → World → World
  | [], w => { w with stdin := [] }
  | r :: rs, w =>
    if r.rv ≤ 0 then { w with stdin := rs }
    else pipe_while key rs (pipe_for key (r.buf.take r.rv.toNat) { w with stdin := rs })

/-- The `while (*text)` loop of the `type` operation. -/
def type_while : List Nat → World → World
  | [], w => w
  | t :: text, w =>
    if t = 0 then w
    else
      let c := t % 256
      let map := Charmap c
      let key : wkey :=
        { key := map &&& 0xFF,
          mod := map &&& (0xFFFFFFFF ^^^ (map &&& 0xFF)) }
      type_while text (do_type (debug_log w (Diag.typing c map)) key)

/-- The function `parse_args`; `argc` is the length of `argv`.  The result is `none` only
if a call of `parse_kbd` runs out of fuel. -/
def parse_args : List (List Nat) → World → Option (World × Ctl)
  | [], w => some (w, Ctl.returned)
  | cmd :: argv1, w =>
    let key : wkey := { key := 0, mod := MOD_NONE }
    if strcmp cmd (str "pipe") = 0 then
      some (error (pipe_while key w.stdin w) Diag.unexpected_error_of_pipe)
    else if strcmp cmd (str "help") = 0 then
      match print_help w with
      | (w1, Ctl.returned) => some (w1, Ctl.exited EXIT_SUCCESS)
      | r => some r
    else
      match argv1 with
      | [] => some (error w Diag.check_help)
      | arg1 :: argv2 =>
        if strcmp cmd (str "type") = 0 then
          parse_args argv2 (type_while arg1 w)
        else if strcmp cmd (str "send") = 0 then
          match parse_kbd arg1 with
          | none => none
          | some (Except.error d) => some (error w d)
          | some (Except.ok key1) =>
            parse_args argv2 (do_type (debug_log w (Diag.sending key1.key key1.mod)) key1)
        else if strcmp cmd (str "sleep") = 0 then
          let ms := (atoi arg1 % 4294967296).toNat
          parse_args argv2 { w with slept := w.slept ++ [ms * 1000 % 4294967296] }
        else
          some (error w (Diag.invalid_subcommand cmd))

/-! ## Notions of the specification -/

/-- The device key code of the Scancode Table entry of byte `c`: its low 8 bits. -/
def scancode (c : Nat) : Nat := Charmap c &&& 0xFF

/-- Whether the Scancode Table entry of byte `c` requires Shift. -/
def requiresShift (c : Nat) : Bool := Charmap c &&& SHIFT != 0

/-- A recognised modifier name: equal, ignoring case, to a name of the Modifier Name
Table. -/
def isModName (t : List Nat) : Prop :=
  ∃ e ∈ Mod_names, t.map tolower = e.1.map tolower

/-- The tokens of a chord expression: the maximal runs of bytes without a delimiter,
in order, i.e. the pieces between delimiters with the empty pieces left out. -/
def tokens (kbd : List Nat) : List (List Nat) :=
  (kbd.splitOn delim).filter (fun t => t != [])

/-- The chord expression written from modifier tokens and a key token, joined by the
delimiter. -/
def chord (mods : List (List Nat)) (k : List Nat) : List Nat :=
  [delim].intercalate (mods ++ [k])

/-- The bitwise OR of the bits of a list of modifier names. -/
def modMask (mods : List (List Nat)) : Nat :=
  mods.foldl (fun m t => m ||| name_to_mod t) MOD_NONE

/-- The key event the `type` operation builds for a byte `t` of its text. -/
def type_key (t : Nat) : wkey :=
  { key := Charmap (t % 256) &&& 0xFF,
    mod := Charmap (t % 256) &&& (0xFFFFFFFF ^^^ (Charmap (t % 256) &&& 0xFF)) }

/-- The key event the `pipe` operation builds for a byte `b` it has read. -/
def pipe_key (b : Nat) : wkey := { key := b % 256, mod := MOD_NONE }

/-- A name of the Named-Key Table: equal, ignoring case, to a name of `Keymap`. -/
def isKeyName (t : List Nat) : Prop :=
  ∃ e ∈ Keymap, t.map tolower = e.1.map tolower

instance (t : List Nat) : Decidable (isModName t) := by
  unfold isModName; exact inferInstance

instance (t : List Nat) : Decidable (isKeyName t) := by
  unfold isKeyName; exact inferInstance

/-- The key code the last token of a chord expression resolves to (the conditional
expression assigned to `key.key` in `parse_kbd`). -/
def key_of_token (ptr : List Nat) : Nat :=
  if ptr.getD 1 0 = 0 then Charmap (ptr.getD 0 0 % 256) else keyname_to_keycode ptr

/-- The loop of `parse_kbd` over the list of the tokens still to come: `ptr` is the
current token, the list holds the ones `strtok` will return next. -/
def parse_tokens : List Nat → List (List Nat) → wkey → Except Diag wkey
  | ptr, [], key => Except.ok { key with key := key_of_token ptr }
  | ptr, next :: more, key =>
    if name_to_mod ptr = MOD_NONE then Except.error (Diag.kbd_invalid_mode_code ptr)
    else parse_tokens next more { key with mod := key.mod ||| name_to_mod ptr }

/-- The digit keys of a US keyboard with the symbol printed above each: `1 !`, `2 @`,
`3 #`, `4 $`, `5 %`, `6 ^`, `7 &`, `8 *`, `9 (`, `0 )`, as (digit, symbol) bytes. -/
def digit_symbols : List (Nat × Nat) :=
  [(49, 33), (50, 64), (51, 35), (52, 36), (53, 37), (54, 94), (55, 38), (56, 42), (57, 40),
   (48, 41)]

/-- The Scancode Table entry of byte `c` as the pair (key code, requires Shift). -/
def scancode_entry (c : Nat) : Nat × Bool := (scancode c, requiresShift c)

/-- The first index of `Charmap` whose initialiser has the value `v`. -/
def Charmap_index (v : Nat) : Option Nat :=
  (Charmap_init.find? (fun e => e.2 == v)).map (fun e => e.1)

/-- A request without its time stamp: the time of a key request is set to 0. -/
def untimed : Request → Request
  | Request.key _ key state => Request.key 0 key state
  | r => r

/-- The requests one call of `do_type` sends for a key event, without time stamps. -/
def key_requests (key : wkey) : List Request :=
  [Request.modifiers key.mod 0 0 0] ++
    (if key.key ≠ 0 then [Request.key 0 key.key KeyState.pressed,
                          Request.key 0 key.key KeyState.released] else []) ++
    (if key.mod ≠ MOD_NONE then [Request.modifiers 0 0 0 0] else [])

/-- The own trace of a two-token operation: the requests the dispatcher sends, without time
stamps, when the operation is the whole argument list and nothing has been sent before. -/
def op_trace (cmd arg : List Nat) : List Request :=
  match parse_args [cmd, arg] (World.init (fun _ => 0) []) with
  | some r => r.1.sent.map untimed
  | none => []

/-- The argument list of a sequence of two-token operations. -/
def argv_of_ops (ops : List (List Nat × List Nat)) : List (List Nat) :=
  (ops.map (fun op => [op.1, op.2])).flatten

/-- The modifier mask sent most recently in a trace: the first argument of its last
`modifiers` request, if there is one. -/
def last_mask (trace : List Request) : Option Nat :=
  trace.foldl (fun m r =>
    match r with
    | Request.modifiers d _ _ _ => some d
    | Request.key _ _ _ => m) none

/-! ## The event sequencer: theorems -/

/-- C1: for a key event with nonzero modifier mask `m` and nonzero code `k`, `do_type`
sends exactly four requests, in this order: set-modifiers(`m`), key-down(`k`), key-up(`k`),
clear-modifiers (mask 0); the two key requests carry two successive clock readings. -/
theorem do_type_mod_key (w : World) (k m : Nat) (hm : m ≠ 0) (hk : k ≠ 0) :
    (do_type w { key := k, mod := m }).sent =
      w.sent ++ [Request.modifiers m 0 0 0,
                 Request.key (w.now w.ticks) k KeyState.pressed,
                 Request.key (w.now (w.ticks + 1)) k KeyState.released,
                 Request.modifiers 0 0 0 0] := by
  simp [do_type, World.send, timestamp, MOD_NONE, hm, hk]

/-- Witness of C1: the event of `C-s`, code 31 with mask Control. -/
theorem do_type_mod_key_witness :
    (do_type (World.init (fun n => n) []) { key := 31, mod := MOD_CONTROL }).sent =
      [Request.modifiers 4 0 0 0, Request.key 0 31 KeyState.pressed,
       Request.key 1 31 KeyState.released, Request.modifiers 0 0 0 0] :=
  do_type_mod_key (World.init (fun n => n) []) 31 MOD_CONTROL (by decide) (by decide)

/-- C2, as stated, fails: for the event with code 0 and mask 0 the trace is not empty. -/
theorem do_type_noop_not_empty :
    (do_type (World.init (fun n => n) []) { key := 0, mod := 0 }).sent ≠ [] := by
  decide

/-- C2, amended: for the event with code 0 and mask 0, `do_type` sends exactly one request,
set-modifiers with mask 0, and nothing else. -/
theorem do_type_noop (w : World) :
    (do_type w { key := 0, mod := 0 }).sent = w.sent ++ [Request.modifiers 0 0 0 0] := by
  simp [do_type, World.send, MOD_NONE]

/-- C3, as stated, fails: for the event with code 30 and mask 0 the trace is not
key-down(30), key-up(30); it starts with a modifier request. -/
theorem do_type_no_mod_sends_modifiers :
    (do_type (World.init (fun n => n) []) { key := 30, mod := 0 }).sent ≠
        [Request.key 0 30 KeyState.pressed, Request.key 1 30 KeyState.released] ∧
      Request.modifiers 0 0 0 0 ∈
        (do_type (World.init (fun n => n) []) { key := 30, mod := 0 }).sent := by
  decide

/-- C3, amended: for an event with mask 0, `do_type` sends exactly one modifier request,
set-modifiers with mask 0, first, and no clear-modifiers; with a nonzero code `k` the
trace is set-modifiers(0), key-down(`k`), key-up(`k`), with code 0 it is set-modifiers(0)
alone. -/
theorem do_type_no_mod (w : World) (k : Nat) :
    (do_type w { key := k, mod := 0 }).sent =
      w.sent ++ Request.modifiers 0 0 0 0 ::
        (if k = 0 then []
         else [Request.key (w.now w.ticks) k KeyState.pressed,
               Request.key (w.now (w.ticks + 1)) k KeyState.released]) := by
  by_cases hk : k = 0 <;> simp [do_type, World.send, timestamp, MOD_NONE, hk]

/-! ## Strings: lemmas -/

theorem tolower_eq_zero (c : Nat) : tolower c = 0 ↔ c = 0 := by
  unfold tolower; split <;> omega

theorem strcasecmp_eq_zero (a b : List Nat) (ha : ∀ x ∈ a, x ≠ 0) (hb : ∀ x ∈ b, x ≠ 0) :
    strcasecmp a b = 0 ↔ a.map tolower = b.map tolower := by
  induction a generalizing b with
  | nil =>
    cases b with
    | nil => simp [strcasecmp]
    | cons y ys =>
      have hy : y ≠ 0 := hb y (List.mem_cons_self _ _)
      have : tolower y ≠ 0 := fun h => hy ((tolower_eq_zero y).1 h)
      simp [strcasecmp]; omega
  | cons x xs ih =>
    have hx : x ≠ 0 := ha x (List.mem_cons_self _ _)
    have hx1 : tolower x ≠ 0 := fun h => hx ((tolower_eq_zero x).1 h)
    cases b with
    | nil => simp [strcasecmp]; omega
    | cons y ys =>
      have ih1 := ih ys (fun z hz => ha z (List.mem_cons_of_mem _ hz))
        (fun z hz => hb z (List.mem_cons_of_mem _ hz))
      by_cases h : tolower x = tolower y
      · simp [strcasecmp, h, ih1]
      · simp [strcasecmp, h]; omega

/-! ## Tokens: lemmas -/

theorem splitOn_delim_shape (cs : List Nat) :
    ∃ tl, cs.splitOn delim = cs.takeWhile (fun c => c != delim) :: tl ∧
      tl.filter (fun t => t != []) = tokens ((cs.dropWhile (fun c => c != delim)).drop 1) := by
  induction cs with
  | nil => exact ⟨[], by simp [List.splitOn], by simp [tokens, List.splitOn]⟩
  | cons c cs ih =>
    obtain ⟨tl, h1, h2⟩ := ih
    by_cases hc : c = delim
    · refine ⟨cs.splitOn delim, ?_, ?_⟩
      · simp [List.splitOn, hc]
      · simp [hc, tokens]
    · refine ⟨tl, ?_, ?_⟩
      · simp only [List.splitOn] at h1
        simp [List.splitOn, hc, h1, List.modifyHead]
      · simpa [hc] using h2

theorem tokens_strtok (s : List Nat) :
    tokens s = match strtok s with
      | none => []
      | some (t, r) => t :: tokens r := by
  induction s with
  | nil => simp [tokens, strtok, List.splitOn]
  | cons c cs ih =>
    by_cases hc : c = delim
    · have h1 : tokens (c :: cs) = tokens cs := by
        simp [tokens, List.splitOn, hc]
      have h2 : strtok (c :: cs) = strtok cs := by
        simp [strtok, hc]
      rw [h1, h2, ih]
    · obtain ⟨tl, h1, h2⟩ := splitOn_delim_shape cs
      have h3 : strtok (c :: cs) =
          some (c :: cs.takeWhile (fun c => c != delim),
                (cs.dropWhile (fun c => c != delim)).drop 1) := by
        simp [strtok, hc]
      rw [h3]
      simp only [List.splitOn] at h1
      simp only [tokens, List.splitOn] at h2 ⊢
      simp [hc, h1, List.modifyHead, h2]

theorem strtok_some {s t r : List Nat} (h : strtok s = some (t, r)) :
    r.length < s.length ∧ t ≠ [] ∧ delim ∉ t ∧ (∀ b ∈ t, b ∈ s) ∧ (∀ b ∈ r, b ∈ s) := by
  unfold strtok at h
  split at h
  · simp at h
  · rename_i c cs heq
    simp only [Option.some.injEq, Prod.mk.injEq] at h
    obtain ⟨ht, hr⟩ := h
    have hsuf : (c :: cs) <:+ s := heq ▸ List.dropWhile_suffix _
    have hsub : ∀ b ∈ c :: cs, b ∈ s := fun b hb => hsuf.subset hb
    have hc : (c != delim) = true := by
      have := List.head_dropWhile_not (fun c => c == delim) s (by rw [heq]; simp)
      simpa [heq] using this
    refine ⟨?_, ?_, ?_, ?_, ?_⟩
    · subst hr
      have h1 : (List.dropWhile (fun c => c != delim) (c :: cs)).length ≤ cs.length := by
        rw [List.dropWhile_cons_of_pos (p := fun c => c != delim) hc]
        exact (List.dropWhile_sublist _).length_le
      have h2 := hsuf.length_le
      simp only [List.length_drop, List.length_cons] at *
      omega
    · subst ht; rw [List.takeWhile_cons_of_pos (p := fun c => c != delim) hc]; simp
    · subst ht
      intro hmem
      have := List.mem_takeWhile_imp hmem
      simp at this
    · subst ht
      intro b hb
      exact hsub b ((List.takeWhile_sublist _).subset hb)
    · subst hr
      intro b hb
      exact hsub b ((List.dropWhile_sublist _).subset (List.mem_of_mem_drop hb))

theorem tokens_mem_aux (n : Nat) :
    ∀ s : List Nat, s.length < n → ∀ t ∈ tokens s, t ≠ [] ∧ delim ∉ t ∧ ∀ b ∈ t, b ∈ s := by
  induction n with
  | zero => intro s h; omega
  | succ n ih =>
    intro s hn t ht
    rw [tokens_strtok] at ht
    cases hs : strtok s with
    | none => simp [hs] at ht
    | some p =>
      obtain ⟨t1, r⟩ := p
      obtain ⟨hlen, hne, hd, hts, hrs⟩ := strtok_some hs
      simp only [hs, List.mem_cons] at ht
      rcases ht with rfl | ht
      · exact ⟨hne, hd, hts⟩
      · obtain ⟨h1, h2, h3⟩ := ih r (by omega) t ht
        exact ⟨h1, h2, fun b hb => hrs b (h3 b hb)⟩

theorem tokens_mem {s : List Nat} :
    ∀ t ∈ tokens s, t ≠ [] ∧ delim ∉ t ∧ ∀ b ∈ t, b ∈ s :=
  tokens_mem_aux (s.length + 1) s (Nat.lt_succ_self _)

theorem tokens_intercalate (ts : List (List Nat)) (hne : ts ≠ [])
    (h : ∀ t ∈ ts, delim ∉ t) :
    tokens ([delim].intercalate ts) = ts.filter (fun t => t != []) := by
  unfold tokens
  rw [List.splitOn_intercalate _ delim h hne]

theorem tokens_chord (mods : List (List Nat)) (k : List Nat)
    (hm : ∀ t ∈ mods, t ≠ [] ∧ delim ∉ t) (hk : delim ∉ k) :
    tokens (chord mods k) = mods ++ (if k = [] then [] else [k]) := by
  unfold chord
  rw [tokens_intercalate _ (by simp)]
  · rw [List.filter_append]
    congr 1
    · rw [List.filter_eq_self]
      intro t ht
      simpa using (hm t ht).1
    · by_cases hk0 : k = [] <;> simp [hk0]
  · intro t ht
    rcases List.mem_append.1 ht with ht | ht
    · exact (hm t ht).2
    · simp at ht; subst ht; exact hk

/-! ## The chord parser: lemmas -/

theorem parse_kbd_loop_eq (fuel : Nat) (ptr save : List Nat) (key : wkey)
    (h : save.length < fuel) :
    parse_kbd_loop fuel ptr save key = some (parse_tokens ptr (tokens save) key) := by
  induction fuel generalizing ptr save key with
  | zero => omega
  | succ n ih =>
    rw [tokens_strtok]
    unfold parse_kbd_loop
    cases hs : strtok save with
    | none => simp [parse_tokens, key_of_token]
    | some p =>
      obtain ⟨next, save1⟩ := p
      have hlen := (strtok_some hs).1
      by_cases hmod : name_to_mod ptr = MOD_NONE
      · simp [parse_tokens, hmod]
      · simp only [parse_tokens, hmod, if_false]
        exact ih next save1 _ (by omega)

/-- The loop of `parse_kbd` always ends within the fuel it is given: `parse_kbd` is the
loop over the tokens of the expression. -/
theorem parse_kbd_eq (kbd : List Nat) :
    parse_kbd kbd = some (match tokens kbd with
      | [] => Except.ok { key := 0, mod := MOD_NONE }
      | t :: ts => parse_tokens t ts { key := 0, mod := MOD_NONE }) := by
  rw [tokens_strtok]
  unfold parse_kbd
  cases hs : strtok kbd with
  | none => rfl
  | some p =>
    obtain ⟨ptr, save⟩ := p
    have hlen := (strtok_some hs).1
    exact parse_kbd_loop_eq _ ptr save _ (by omega)

theorem parse_kbd_total (kbd : List Nat) : parse_kbd kbd ≠ none := by
  rw [parse_kbd_eq]; simp

/-! ## Modifier and key names: lemmas -/

theorem tolower_eq_lower (x c : Nat) (hc : 97 ≤ c ∧ c ≤ 122) :
    tolower x = c ↔ x = c ∨ x + 32 = c := by
  unfold tolower; split <;> omega

theorem isModName_iff (t : List Nat) :
    isModName t ↔ t ∈ [[83], [115], [67], [99], [72], [104], [77], [109]] := by
  have hM : Mod_names = [([83], 1), ([67], 4), ([72], 64), ([77], 8)] := by decide
  have key : ∀ c : Nat, 97 ≤ c ∧ c ≤ 122 →
      (t.map tolower = [c] ↔ t = [c] ∨ t = [c - 32]) := by
    intro c hc
    cases t with
    | nil => simp
    | cons x xs =>
      cases xs with
      | nil =>
        simp only [List.map_cons, List.map_nil, List.cons.injEq, and_true]
        rw [tolower_eq_lower x c hc]; omega
      | cons y ys => simp
  unfold isModName
  rw [hM]
  have e1 : tolower 83 = 115 := by decide
  have e2 : tolower 67 = 99 := by decide
  have e3 : tolower 72 = 104 := by decide
  have e4 : tolower 77 = 109 := by decide
  simp only [List.mem_cons, List.mem_singleton, exists_eq_or_imp, List.map_cons, List.map_nil,
    e1, e2, e3, e4, List.not_mem_nil, false_and, exists_false, or_false, exists_eq_left,
    key 115 (by omega), key 99 (by omega), key 104 (by omega), key 109 (by omega)]
  tauto

theorem isModName_name_to_mod {t : List Nat} (h : isModName t) :
    name_to_mod t ≠ MOD_NONE ∧ t ≠ [] ∧ delim ∉ t := by
  rw [isModName_iff] at h
  simp only [List.mem_cons, List.mem_singleton, List.not_mem_nil, or_false] at h
  rcases h with rfl | rfl | rfl | rfl | rfl | rfl | rfl | rfl <;> decide

theorem name_to_mod_isModName {t : List Nat} (ht : ∀ x ∈ t, x ≠ 0)
    (h : name_to_mod t ≠ MOD_NONE) : isModName t := by
  unfold name_to_mod at h
  cases hf : Mod_names.find? (fun e => strcasecmp e.1 t == 0) with
  | none => simp [hf] at h
  | some e =>
    have hmem := List.mem_of_find?_eq_some hf
    have hp := List.find?_some hf
    simp only [beq_iff_eq] at hp
    have he : ∀ e ∈ Mod_names, ∀ x ∈ e.1, x ≠ 0 := by decide
    exact ⟨e, hmem, ((strcasecmp_eq_zero e.1 t (he e hmem) ht).1 hp).symm⟩

theorem keyname_to_keycode_eq_zero {t : List Nat} (ht : ∀ x ∈ t, x ≠ 0)
    (h : ¬ isKeyName t) : keyname_to_keycode t = 0 := by
  unfold keyname_to_keycode
  cases hf : Keymap.find? (fun e => strcasecmp e.1 t == 0) with
  | none => rfl
  | some e =>
    exfalso
    have hmem := List.mem_of_find?_eq_some hf
    have hp := List.find?_some hf
    simp only [beq_iff_eq] at hp
    have he : ∀ e ∈ Keymap, ∀ x ∈ e.1, x ≠ 0 := by decide
    exact h ⟨e, hmem, ((strcasecmp_eq_zero e.1 t (he e hmem) ht).1 hp).symm⟩

theorem Charmap_eq_zero_of_ge (k : Nat) (hk : 256 ≤ k) : Charmap k = 0 := by
  have hall : ∀ p ∈ Charmap_init, p.1 < 256 := by decide
  have hgen : ∀ l : List (Nat × Nat), (∀ p ∈ l, p.1 < 256) → l.lookup k = none := by
    intro l
    induction l with
    | nil => intro _; rfl
    | cons p l ih =>
      intro h
      obtain ⟨a, b⟩ := p
      have ha : a < 256 := h (a, b) (List.mem_cons_self _ _)
      have hne : (k == a) = false := by simp; omega
      rw [List.lookup_cons, hne]
      exact ih (fun q hq => h q (List.mem_cons_of_mem _ hq))
  unfold Charmap
  rw [hgen _ hall]; rfl

set_option maxRecDepth 100000 in
theorem scancode_of_unshifted :
    ∀ k < 256, requiresShift k = false → scancode k = Charmap k := by
  decide

theorem key_of_token_single (k : Nat) (hk : Charmap k ≠ 0) :
    key_of_token [k] = Charmap k := by
  have hlt : k < 256 := by
    by_contra h
    exact hk (Charmap_eq_zero_of_ge k (by omega))
  simp [key_of_token, Nat.mod_eq_of_lt hlt]

theorem parse_tokens_mods (m : List Nat) (ms : List (List Nat)) (k : List Nat) (key : wkey)
    (h : ∀ x ∈ m :: ms, isModName x) :
    parse_tokens m (ms ++ [k]) key =
      Except.ok { key := key_of_token k,
                  mod := (m :: ms).foldl (fun a t => a ||| name_to_mod t) key.mod } := by
  induction ms generalizing m key with
  | nil =>
    have hm := (isModName_name_to_mod (h m (List.mem_cons_self _ _))).1
    simp [parse_tokens, hm]
  | cons m1 ms ih =>
    have hm := (isModName_name_to_mod (h m (List.mem_cons_self _ _))).1
    have ih1 := ih m1 { key with mod := key.mod ||| name_to_mod m }
      (fun x hx => h x (List.mem_cons_of_mem _ hx))
    simp only [List.cons_append, parse_tokens, hm, if_false, List.foldl_cons]
    exact ih1

theorem parse_tokens_list (ms : List (List Nat)) (k : List Nat)
    (h : ∀ x ∈ ms, isModName x) :
    (match ms ++ [k] with
      | [] => Except.ok { key := 0, mod := MOD_NONE }
      | t :: ts => parse_tokens t ts { key := 0, mod := MOD_NONE }) =
      Except.ok { key := key_of_token k, mod := modMask ms } := by
  cases ms with
  | nil => simp [parse_tokens, modMask]
  | cons m ms =>
    simp only [List.cons_append]
    rw [parse_tokens_mods m ms k _ h]
    rfl

theorem parse_kbd_chord (ms : List (List Nat)) (k : List Nat)
    (hms : ∀ m ∈ ms, isModName m) (hne : k ≠ []) (hd : delim ∉ k) :
    parse_kbd (chord ms k) = some (Except.ok { key := key_of_token k, mod := modMask ms }) := by
  rw [parse_kbd_eq, tokens_chord ms k
    (fun t ht => (isModName_name_to_mod (hms t ht)).2) hd]
  simp only [hne, if_false]
  rw [parse_tokens_list ms k hms]

theorem modMask_perm {ms1 ms2 : List (List Nat)} (h : ms1.Perm ms2) :
    modMask ms1 = modMask ms2 := by
  unfold modMask
  refine List.Perm.foldl_eq' h ?_ MOD_NONE
  intro x _ y _ z
  rw [Nat.lor_assoc, Nat.lor_comm (name_to_mod x), ← Nat.lor_assoc]

theorem parse_tokens_error_iff (ptr : List Nat) (rest : List (List Nat)) (key : wkey) :
    (∃ d, parse_tokens ptr rest key = Except.error d) ↔
      ∃ t ∈ (ptr :: rest).dropLast, name_to_mod t = MOD_NONE := by
  induction rest generalizing ptr key with
  | nil => simp [parse_tokens]
  | cons next more ih =>
    by_cases hmod : name_to_mod ptr = MOD_NONE
    · simp [parse_tokens, hmod]
    · have ih1 := ih next { key with mod := key.mod ||| name_to_mod ptr }
      simp only [parse_tokens, hmod, if_false, ih1, List.dropLast_cons₂, List.mem_cons,
        exists_eq_or_imp, false_or]

theorem chord_nil_key (ms : List (List Nat)) (hne : ms ≠ []) :
    chord ms [] = [delim].intercalate ms ++ [delim] := by
  unfold chord
  induction ms with
  | nil => exact absurd rfl hne
  | cons m ms ih =>
    cases ms with
    | nil => simp [List.intercalate, List.intersperse]
    | cons m1 ms =>
      have ih1 := ih (by simp)
      simp only [List.intercalate, List.cons_append, List.intersperse, List.flatten_cons,
        List.append_assoc] at ih1 ⊢
      simp only [List.append_eq] at ih1 ⊢
      rw [ih1]

/-! ## The dispatcher: lemmas -/

theorem do_type_typed (w : World) (key : wkey) : (do_type w key).typed = w.typed ++ [key] := by
  unfold do_type
  by_cases h1 : key.key = 0 <;> by_cases h2 : key.mod = MOD_NONE <;>
    simp [World.send, timestamp, h1, h2]

theorem type_while_typed (text : List Nat) (w : World) :
    (type_while text w).typed =
      w.typed ++ (text.takeWhile (fun t => t != 0)).map type_key := by
  induction text generalizing w with
  | nil => simp [type_while]
  | cons t text ih =>
    by_cases ht : t = 0
    · simp [type_while, ht]
    · simp only [type_while, ht, if_false]
      rw [ih, do_type_typed]
      simp [debug_log, type_key, ht]

theorem pipe_for_typed (key : wkey) (buf : List Nat) (w : World) :
    (pipe_for key buf w).typed = w.typed ++ buf.map (fun b => { key with key := b % 256 }) := by
  induction buf generalizing w with
  | nil => simp [pipe_for]
  | cons b bs ih => simp [pipe_for, ih, do_type_typed]

theorem parse_args_type (text : List Nat) (argv : List (List Nat)) (w : World) :
    parse_args (str "type" :: text :: argv) w = parse_args argv (type_while text w) := by
  rfl

/-! ## The dispatcher and the chord parser: theorems -/

/-- C4: on `type Ab1` the dispatcher produces three key events, in order, with the codes of
`A`, `b` and `1`; the event of `A`, which requires Shift, carries the mask `0x100` (the
flag `SHIFT` of the table), not `MOD_SHIFT = 0x1`. -/
theorem type_Ab1_events (w : World) :
    (parse_args [str "type", str "Ab1"] w).map (fun r => r.1.typed) =
        some (w.typed ++ [{ key := scancode 65, mod := 0x100 },
                          { key := scancode 98, mod := 0 },
                          { key := scancode 49, mod := 0 }]) ∧
      requiresShift 65 = true ∧ MOD_SHIFT = 0x1 := by
  refine ⟨?_, by decide, rfl⟩
  rw [parse_args_type]
  simp only [parse_args, Option.map_some', type_while_typed]
  have h : (str "Ab1").takeWhile (fun t => t != 0) = [65, 98, 49] := by decide
  have hk : [65, 98, 49].map type_key =
      [{ key := scancode 65, mod := 0x100 }, { key := scancode 98, mod := 0 },
       { key := scancode 49, mod := 0 }] := by decide
  rw [h, hk]

/-- C5, as stated, fails at the key designator `-`: it is an unshifted mapped character
(code 12), but the expression `-` yields code 0, and no expression yields its code. -/
theorem parse_kbd_hyphen_designator :
    Charmap 45 ≠ 0 ∧ requiresShift 45 = false ∧
      parse_kbd (chord [] [45]) ≠
        some (Except.ok { key := scancode 45, mod := modMask [] }) := by
  decide

/-- C5, amended: for every sequence `ms` of recognised modifier names followed by a
single-character key designator `k` that is an unshifted mapped character other than the
delimiter `-`, `parse_kbd` of the hyphen-joined expression yields the Scancode Table code of
`k` and the bitwise OR of the modifiers' bits, and the result is the same for every
permutation `ms1` of the modifier tokens. -/
theorem parse_kbd_modifiers_key (ms ms1 : List (List Nat)) (k : Nat)
    (hms : ∀ m ∈ ms, isModName m) (hperm : ms1.Perm ms)
    (hk : Charmap k ≠ 0) (hs : requiresShift k = false) (hd : k ≠ delim) :
    parse_kbd (chord ms [k]) = some (Except.ok { key := scancode k, mod := modMask ms }) ∧
      parse_kbd (chord ms1 [k]) = parse_kbd (chord ms [k]) := by
  have hlt : k < 256 := by
    by_contra h
    exact hk (Charmap_eq_zero_of_ge k (by omega))
  have hkd : delim ∉ [k] := by simpa using fun h => hd h.symm
  have hms1 : ∀ m ∈ ms1, isModName m := fun m hm => hms m (hperm.subset hm)
  rw [parse_kbd_chord ms [k] hms (by simp) hkd, parse_kbd_chord ms1 [k] hms1 (by simp) hkd,
    key_of_token_single k hk, scancode_of_unshifted k hlt hs, modMask_perm hperm]
  exact ⟨rfl, rfl⟩

/-- Witness of C5: `C-M-s` and `M-C-s` both yield code 31 with mask Control|Alt = 0xC. -/
theorem parse_kbd_modifiers_key_witness :
    parse_kbd (str "C-M-s") = some (Except.ok { key := 31, mod := 0xC }) ∧
      parse_kbd (str "M-C-s") = parse_kbd (str "C-M-s") :=
  parse_kbd_modifiers_key [str "C", str "M"] [str "M", str "C"] 115
    (by decide) (List.Perm.swap _ _ _) (by decide) (by decide) (by decide)

/-- C6: `parse_kbd` always ends, and on a well-formed string it fails with the fatal parse
error if and only if some token other than the last one is not a recognised modifier name
(ignoring case), the tokens being the runs of bytes between delimiters that `strtok`
returns. -/
theorem parse_kbd_fails_iff (kbd : List Nat) (h : CStr kbd) :
    parse_kbd kbd ≠ none ∧
      ((∃ d, parse_kbd kbd = some (Except.error d)) ↔
        ∃ t ∈ (tokens kbd).dropLast, ¬ isModName t) := by
  refine ⟨parse_kbd_total kbd, ?_⟩
  have hconv : ∀ t ∈ (tokens kbd).dropLast, (name_to_mod t = MOD_NONE ↔ ¬ isModName t) := by
    intro t ht
    have hmem : t ∈ tokens kbd := (List.dropLast_subset _) ht
    have hnz : ∀ x ∈ t, x ≠ 0 := fun x hx =>
      Nat.pos_iff_ne_zero.1 (h x ((tokens_mem t hmem).2.2 x hx)).1
    constructor
    · intro h0 hn
      exact (isModName_name_to_mod hn).1 h0
    · intro hn
      by_contra h0
      exact hn (name_to_mod_isModName hnz h0)
  have hiff : (∃ t ∈ (tokens kbd).dropLast, name_to_mod t = MOD_NONE) ↔
      ∃ t ∈ (tokens kbd).dropLast, ¬ isModName t := by
    constructor
    · rintro ⟨t, ht, h0⟩; exact ⟨t, ht, (hconv t ht).1 h0⟩
    · rintro ⟨t, ht, h0⟩; exact ⟨t, ht, (hconv t ht).2 h0⟩
  rw [← hiff, parse_kbd_eq]
  cases htk : tokens kbd with
  | nil => simp
  | cons t ts =>
    simp only [Option.some.injEq]
    exact parse_tokens_error_iff t ts _

/-- Witness of C6: `Q-s` fails, `Q` being no modifier name. -/
theorem parse_kbd_fails_iff_witness :
    CStr (str "Q-s") ∧ ∃ d, parse_kbd (str "Q-s") = some (Except.error d) :=
  ⟨by decide, (parse_kbd_fails_iff (str "Q-s") (by decide)).2.2 ⟨str "Q", by decide, by decide⟩⟩

/-- C7: on `C-!` the chord parser yields the code 258 = `SHIFT | 2`, the whole table entry
of `!` with the flag `SHIFT` folded in, where the device key code of `!`, the one the `type`
operation uses, is 2; the mask holds only the modifier written, Control. -/
theorem parse_kbd_shifted_designator :
    parse_kbd (str "C-!") = some (Except.ok { key := 258, mod := MOD_CONTROL }) ∧
      scancode 33 = 2 ∧ (type_key 33).key = 2 ∧ 258 = SHIFT ||| 2 := by
  decide

/-- C8: for every chord expression whose non-final tokens `ms` are recognised modifier
names and whose final token `t` resolves in neither table (a single unmapped byte, or a name
of two or more bytes that is not in the Named-Key Table), `parse_kbd` does not fail and
yields code 0 with the bitwise OR of the modifiers' bits as mask. -/
theorem parse_kbd_unresolved_key (ms : List (List Nat)) (t : List Nat)
    (hms : ∀ m ∈ ms, isModName m) (ht : CStr t) (hd : delim ∉ t)
    (hres : (∃ c, t = [c] ∧ Charmap c = 0) ∨ (2 ≤ t.length ∧ ¬ isKeyName t)) :
    parse_kbd (chord ms t) = some (Except.ok { key := 0, mod := modMask ms }) := by
  have hne : t ≠ [] := by
    rcases hres with ⟨c, rfl, _⟩ | ⟨hlen, _⟩
    · simp
    · intro h; rw [h] at hlen; simp at hlen
  have hkey : key_of_token t = 0 := by
    rcases hres with ⟨c, rfl, hc⟩ | ⟨hlen, hk⟩
    · have hlt : c < 256 := (ht c (List.mem_singleton_self c)).2
      simp [key_of_token, Nat.mod_eq_of_lt hlt, hc]
    · have hnz : ∀ x ∈ t, x ≠ 0 := fun x hx => Nat.pos_iff_ne_zero.1 (ht x hx).1
      match t, hlen, hnz, hk with
      | a :: b :: r, _, hnz, hk =>
        have hb : b ≠ 0 := hnz b (by simp)
        simp [key_of_token, hb, keyname_to_keycode_eq_zero hnz hk]
  rw [parse_kbd_chord ms t hms hne hd, hkey]

/-- Witness of C8: `C-F5`, `F5` being in neither table, yields code 0 with mask Control. -/
theorem parse_kbd_unresolved_key_witness :
    parse_kbd (str "C-F5") = some (Except.ok { key := 0, mod := MOD_CONTROL }) :=
  parse_kbd_unresolved_key [str "C"] (str "F5") (by decide) (by decide) (by decide)
    (Or.inr ⟨by decide, by decide⟩)

/-- C9, as stated, fails: `C-`, the name `C` followed by a trailing delimiter, yields the
nonzero code 302 of the table entry of `C`, and the mask 0 without Control. -/
theorem parse_kbd_trailing_delim_nonzero :
    chord [str "C"] [] = str "C-" ∧
      parse_kbd (str "C-") = some (Except.ok { key := 302, mod := 0 }) ∧
      ¬ ∃ key, parse_kbd (str "C-") = some (Except.ok key) ∧ key.key = 0 := by
  refine ⟨by decide, by decide, ?_⟩
  rintro ⟨key, hk, h0⟩
  have h : parse_kbd (str "C-") = some (Except.ok { key := 302, mod := 0 }) := by decide
  rw [h] at hk
  simp only [Option.some.injEq, Except.ok.injEq] at hk
  rw [← hk] at h0
  simp at h0

/-- C9, amended: for a non-empty sequence `ms` of recognised modifier names followed by a
trailing delimiter, `parse_kbd` does not fail and gives the result of the expression
without the trailing delimiter: the last name is the key designator, so the code is not
zero, and the mask is the bitwise OR of the bits of the names before the last. -/
theorem parse_kbd_trailing_delim (ms : List (List Nat)) (hne : ms ≠ [])
    (hms : ∀ m ∈ ms, isModName m) :
    chord ms [] = [delim].intercalate ms ++ [delim] ∧
      parse_kbd (chord ms []) = parse_kbd ([delim].intercalate ms) ∧
      ∃ key, parse_kbd (chord ms []) = some (Except.ok key) ∧
        key.key ≠ 0 ∧ key.mod = modMask ms.dropLast := by
  have hsplit : ms.dropLast ++ [ms.getLast hne] = ms := List.dropLast_append_getLast hne
  have hlast : isModName (ms.getLast hne) := hms _ (List.getLast_mem hne)
  have hinit : ∀ m ∈ ms.dropLast, isModName m := fun m hm =>
    hms m ((List.dropLast_subset _) hm)
  have hl := isModName_name_to_mod hlast
  have hkey : key_of_token (ms.getLast hne) ≠ 0 := by
    have h8 := (isModName_iff _).1 hlast
    revert h8
    generalize ms.getLast hne = t
    intro h8
    simp only [List.mem_cons, List.mem_singleton, List.not_mem_nil, or_false] at h8
    rcases h8 with rfl | rfl | rfl | rfl | rfl | rfl | rfl | rfl <;> decide
  have h1 : parse_kbd (chord ms []) =
      some (Except.ok { key := key_of_token (ms.getLast hne), mod := modMask ms.dropLast }) := by
    rw [parse_kbd_eq, tokens_chord ms []
      (fun t ht => (isModName_name_to_mod (hms t ht)).2) (by simp)]
    simp only [if_true, List.append_nil]
    have := parse_tokens_list ms.dropLast (ms.getLast hne) hinit
    rw [hsplit] at this
    rw [this]
  have h2 : parse_kbd ([delim].intercalate ms) =
      some (Except.ok { key := key_of_token (ms.getLast hne), mod := modMask ms.dropLast }) := by
    have := parse_kbd_chord ms.dropLast (ms.getLast hne) hinit hl.2.1 hl.2.2
    unfold chord at this
    rw [hsplit] at this
    exact this
  exact ⟨chord_nil_key ms hne, h1.trans h2.symm, _, h1, hkey, rfl⟩

/-- Witness of C9, amended: `C-M-` parses as `C-M`, with a nonzero code and mask Control. -/
theorem parse_kbd_trailing_delim_witness :
    parse_kbd (str "C-M-") = parse_kbd (str "C-M") ∧
      ∃ key, parse_kbd (str "C-M-") = some (Except.ok key) ∧
        key.key ≠ 0 ∧ key.mod = MOD_CONTROL :=
  (parse_kbd_trailing_delim [str "C", str "M"] (by decide) (by decide)).2

theorem parse_args_pipe (argv : List (List Nat)) (w : World) :
    parse_args (str "pipe" :: argv) w =
      some (error (pipe_while { key := 0, mod := MOD_NONE } w.stdin w)
        Diag.unexpected_error_of_pipe) := by
  cases argv <;> rfl

/-- C10: on `pipe` with the stream `[0x41, 0xFF]` the dispatcher produces the two key
events (65, 0) and (255, 0), the bytes themselves as codes and no mask, where the `type`
operation builds for these bytes the events (30, 0x100) and (0, 0). -/
theorem pipe_A_FF_events (w : World) :
    (parse_args [str "pipe"]
        { w with stdin := [ReadResult.bytes [0x41, 0xFF], ReadResult.eof] }).map
        (fun r => r.1.typed) =
        some (w.typed ++ [{ key := 0x41, mod := 0 }, { key := 0xFF, mod := 0 }]) ∧
      [0x41, 0xFF].map type_key = [{ key := 30, mod := 0x100 }, { key := 0, mod := 0 }] ∧
      scancode 0x41 = 30 ∧ requiresShift 0x41 = true ∧ scancode 0xFF = 0 := by
  refine ⟨?_, by decide, by decide, by decide, by decide⟩
  rw [parse_args_pipe]
  simp [pipe_while, ReadResult.rv, ReadResult.buf, pipe_for_typed, error, MOD_NONE]

/-! ## The tables: theorems -/

set_option maxRecDepth 100000 in
/-- C12: in `Charmap` every ASCII letter and digit has a nonzero key code; every uppercase
letter requires Shift and has the key code of its lowercase letter, which does not require
Shift; every digit does not require Shift, and the symbol printed above it on a US keyboard
has the digit's key code and requires Shift. -/
theorem Charmap_letters_digits (c : Nat) :
    (65 ≤ c ∧ c ≤ 90 →
      scancode c ≠ 0 ∧ requiresShift c = true ∧
        scancode c = scancode (c + 32) ∧ requiresShift (c + 32) = false) ∧
    (97 ≤ c ∧ c ≤ 122 → scancode c ≠ 0 ∧ requiresShift c = false) ∧
    (48 ≤ c ∧ c ≤ 57 →
      scancode c ≠ 0 ∧ requiresShift c = false ∧
        ∃ s, (c, s) ∈ digit_symbols ∧ scancode s = scancode c ∧ requiresShift s = true) := by
  have h : ∀ c < 128,
      (65 ≤ c ∧ c ≤ 90 →
        scancode c ≠ 0 ∧ requiresShift c = true ∧
          scancode c = scancode (c + 32) ∧ requiresShift (c + 32) = false) ∧
      (97 ≤ c ∧ c ≤ 122 → scancode c ≠ 0 ∧ requiresShift c = false) ∧
      (48 ≤ c ∧ c ≤ 57 →
        scancode c ≠ 0 ∧ requiresShift c = false ∧
          ∃ p ∈ digit_symbols, p.1 = c ∧ scancode p.2 = scancode c ∧
            requiresShift p.2 = true) := by
    decide
  by_cases hc : c < 128
  · obtain ⟨h1, h2, h3⟩ := h c hc
    refine ⟨h1, h2, fun hd => ?_⟩
    obtain ⟨h4, h5, p, hp, hpc, h6, h7⟩ := h3 hd
    exact ⟨h4, h5, p.2, by rw [← hpc]; exact hp, h6, h7⟩
  · exact ⟨fun h => by omega, fun h => by omega, fun h => by omega⟩

/-- Witness of C12: `A` and `a` share the key code 30, `1` and `!` the key code 2. -/
theorem Charmap_letters_digits_witness :
    (scancode 65 ≠ 0 ∧ requiresShift 65 = true ∧
        scancode 65 = scancode 97 ∧ requiresShift 97 = false) ∧
      (scancode 49 ≠ 0 ∧ requiresShift 49 = false ∧
        ∃ s, (49, s) ∈ digit_symbols ∧ scancode s = scancode 49 ∧ requiresShift s = true) :=
  ⟨(Charmap_letters_digits 65).1 (by decide), (Charmap_letters_digits 49).2.2 (by decide)⟩

set_option maxRecDepth 100000 in
theorem Charmap_mapped_lt :
    ∀ b < 256,
      (scancode b ≠ 0 ↔ (0x20 ≤ b ∧ b ≤ 0x7E) ∨ b = 0x08 ∨ b = 0x09 ∨ b = 0x0A ∨ b = 0x1B) ∧
      (Charmap b = 0 ∨ scancode b ≠ 0) ∧ (Charmap b = 0 → requiresShift b = false) := by
  decide

/-- C13: the lookup in `Charmap` is a total function, and a byte has a nonzero key code if
and only if it is printable ASCII (0x20 to 0x7E) or backspace 0x08, tab 0x09, newline 0x0A
or escape 0x1B; exactly the other bytes have the entry 0, that is code 0 and no Shift. -/
theorem Charmap_mapped_iff (b : Nat) :
    (scancode b ≠ 0 ↔ (0x20 ≤ b ∧ b ≤ 0x7E) ∨ b = 0x08 ∨ b = 0x09 ∨ b = 0x0A ∨ b = 0x1B) ∧
      (¬ ((0x20 ≤ b ∧ b ≤ 0x7E) ∨ b = 0x08 ∨ b = 0x09 ∨ b = 0x0A ∨ b = 0x1B) ↔
        Charmap b = 0 ∧ scancode b = 0 ∧ requiresShift b = false) := by
  by_cases hb : b < 256
  · obtain ⟨h1, h2, h3⟩ := Charmap_mapped_lt b hb
    refine ⟨h1, ?_⟩
    rw [← h1]
    constructor
    · intro h
      have h0 : scancode b = 0 := not_not.1 h
      have hc : Charmap b = 0 := h2.resolve_right h
      exact ⟨hc, h0, h3 hc⟩
    · rintro ⟨_, h0, _⟩ h
      exact h h0
  · have hc : Charmap b = 0 := Charmap_eq_zero_of_ge b (by omega)
    have h0 : scancode b = 0 := by simp [scancode, hc]
    have hs : requiresShift b = false := by simp [requiresShift, hc]
    have hm : ¬ ((0x20 ≤ b ∧ b ≤ 0x7E) ∨ b = 0x08 ∨ b = 0x09 ∨ b = 0x0A ∨ b = 0x1B) := by
      omega
    exact ⟨⟨fun h => absurd h0 h, fun h => absurd h hm⟩, ⟨fun _ => ⟨hc, h0, hs⟩, fun _ => hm⟩⟩

set_option maxRecDepth 100000 in
theorem Charmap_index_Charmap :
    ∀ c < 256, Charmap c ≠ 0 → Charmap_index (Charmap c) = some c := by
  decide

set_option maxRecDepth 100000 in
theorem Charmap_of_entry :
    ∀ c < 256, Charmap c = scancode c ||| (if requiresShift c then SHIFT else 0) := by
  decide

set_option maxRecDepth 100000 in
theorem Charmap_split_lt :
    ∀ c < 256, scancode c ≤ 57 ∧ (type_key c).key = scancode c ∧
      (type_key c).key ||| (type_key c).mod = Charmap c := by
  decide

/-- C19: `Charmap` is injective on mapped bytes: two distinct bytes that both have a nonzero
entry have different (key code, requires Shift) pairs; every key code is at most 57, and the
low 8 bits of an entry together with its remaining bits, as the `type` operation splits
it, give the entry back. -/
theorem Charmap_injective (a b : Nat) (hab : a ≠ b) (ha : Charmap a ≠ 0)
    (hb : Charmap b ≠ 0) :
    scancode_entry a ≠ scancode_entry b ∧ scancode a ≤ 57 ∧
      (type_key a).key = scancode a ∧ (type_key a).key ||| (type_key a).mod = Charmap a := by
  have hla : a < 256 := by
    by_contra h
    exact ha (Charmap_eq_zero_of_ge a (by omega))
  have hlb : b < 256 := by
    by_contra h
    exact hb (Charmap_eq_zero_of_ge b (by omega))
  refine ⟨?_, Charmap_split_lt a hla⟩
  intro he
  simp only [scancode_entry, Prod.mk.injEq] at he
  have hc : Charmap a = Charmap b := by
    rw [Charmap_of_entry a hla, Charmap_of_entry b hlb, he.1, he.2]
  have h1 := Charmap_index_Charmap a hla ha
  have h2 := Charmap_index_Charmap b hlb hb
  rw [hc, h2] at h1
  exact hab (Option.some.inj h1).symm

/-- Witness of C19: `a` and `A` share the key code 30 and differ in Shift. -/
theorem Charmap_injective_witness :
    scancode_entry 97 ≠ scancode_entry 65 ∧ scancode 97 ≤ 57 ∧
      (type_key 97).key = scancode 97 ∧ (type_key 97).key ||| (type_key 97).mod = Charmap 97 :=
  Charmap_injective 97 65 (by decide) (by decide) (by decide)

theorem find?_congr_mem {α : Type} (p q : α → Bool) (l : List α)
    (h : ∀ e ∈ l, p e = q e) : l.find? p = l.find? q := by
  induction l with
  | nil => rfl
  | cons a l ih =>
    have ha := h a (List.mem_cons_self _ _)
    have ih1 := ih (fun e he => h e (List.mem_cons_of_mem _ he))
    simp only [List.find?_cons, ha, ih1]

theorem keyname_to_keycode_lower (name : List Nat) (h : ∀ x ∈ name, x ≠ 0) :
    keyname_to_keycode name =
      match Keymap.find? (fun e => decide (e.1.map tolower = name.map tolower)) with
      | some e => e.2
      | none => 0 := by
  unfold keyname_to_keycode
  have he : ∀ e ∈ Keymap, ∀ x ∈ e.1, x ≠ 0 := by decide
  rw [find?_congr_mem (fun e => strcasecmp e.1 name == 0)
    (fun e => decide (e.1.map tolower = name.map tolower)) Keymap]
  intro e hmem
  have := strcasecmp_eq_zero e.1 name (he e hmem) h
  by_cases hz : strcasecmp e.1 name = 0
  · simp [hz, this.1 hz]
  · have hne : ¬ e.1.map tolower = name.map tolower := fun hh => hz (this.2 hh)
    simp [hz, hne]

/-- C14: on a well-formed name `keyname_to_keycode` returns a nonzero code if and only if
the name equals, ignoring case, one of the names of `Keymap` (esc, F1, F10, F11, F12), and
it then returns the code of that entry (1, 59, 68, 87, 88); for every other name it returns
0. -/
theorem keyname_to_keycode_iff (name : List Nat) (h : CStr name) :
    (keyname_to_keycode name ≠ 0 ↔ isKeyName name) ∧
      (∀ e ∈ Keymap, name.map tolower = e.1.map tolower → keyname_to_keycode name = e.2) ∧
      (¬ isKeyName name → keyname_to_keycode name = 0) ∧
      Keymap.map (fun e => e.2) = [1, 59, 68, 87, 88] := by
  have hnz : ∀ x ∈ name, x ≠ 0 := fun x hx => Nat.pos_iff_ne_zero.1 (h x hx).1
  have hcode : ∀ e ∈ Keymap, name.map tolower = e.1.map tolower →
      keyname_to_keycode name = e.2 := by
    intro e hmem heq
    have hclosed : ∀ e ∈ Keymap,
        (match Keymap.find? (fun e1 => decide (e1.1.map tolower = e.1.map tolower)) with
          | some e => e.2
          | none => 0) = e.2 := by
      decide
    rw [keyname_to_keycode_lower name hnz, heq]
    exact hclosed e hmem
  have hpos : ∀ e ∈ Keymap, e.2 ≠ 0 := by decide
  refine ⟨⟨?_, ?_⟩, hcode, keyname_to_keycode_eq_zero hnz, by decide⟩
  · intro h0
    by_contra hk
    exact h0 (keyname_to_keycode_eq_zero hnz hk)
  · rintro ⟨e, hmem, heq⟩
    rw [hcode e hmem heq]
    exact hpos e hmem

/-- Witness of C14: `f10`, in lower case, is the key F10 with code 68. -/
theorem keyname_to_keycode_iff_witness :
    keyname_to_keycode (str "f10") ≠ 0 ∧ keyname_to_keycode (str "f10") = 68 :=
  ⟨(keyname_to_keycode_iff (str "f10") (by decide)).1.2 (by decide),
   (keyname_to_keycode_iff (str "f10") (by decide)).2.1 (str "F10", 68) (by decide)
     (by decide)⟩

/-! ## The dispatcher: exits -/

theorem strcmp_eq_zero (a b : List Nat) (ha : ∀ x ∈ a, x ≠ 0) (hb : ∀ x ∈ b, x ≠ 0) :
    strcmp a b = 0 ↔ a = b := by
  induction a generalizing b with
  | nil =>
    cases b with
    | nil => simp [strcmp]
    | cons y ys =>
      have hy : y ≠ 0 := hb y (List.mem_cons_self _ _)
      simp [strcmp]; omega
  | cons x xs ih =>
    have hx : x ≠ 0 := ha x (List.mem_cons_self _ _)
    cases b with
    | nil => simp [strcmp]; omega
    | cons y ys =>
      have ih1 := ih ys (fun z hz => ha z (List.mem_cons_of_mem _ hz))
        (fun z hz => hb z (List.mem_cons_of_mem _ hz))
      by_cases h : x = y
      · simp [strcmp, h, ih1]
      · simp [strcmp, h]; omega

theorem strcmp_ne_zero (cmd : List Nat) (name : String) (hc : CStr cmd)
    (hn : ∀ x ∈ str name, x ≠ 0) (hne : cmd ≠ str name) : strcmp cmd (str name) ≠ 0 := by
  intro h
  exact hne ((strcmp_eq_zero cmd (str name)
    (fun x hx => Nat.pos_iff_ne_zero.1 (hc x hx).1) hn).1 h)

/-- C11: the `pipe` operation ends the same way whatever ended its loop: the dispatcher
always leaves through `error`, with the failure status, after a clean end of stream as
well as after a failed read. -/
theorem pipe_exits_failure (argv : List (List Nat)) (w : World) :
    (parse_args (str "pipe" :: argv) w).map (fun r => r.2) = some (Ctl.exited EXIT_FAILURE) ∧
      (parse_args [str "pipe"] { w with stdin := [ReadResult.eof] }).map
          (fun r => (r.1.stderr, r.2)) =
        some (w.stderr ++ [Diag.unexpected_error_of_pipe], Ctl.exited EXIT_FAILURE) ∧
      (parse_args [str "pipe"] { w with stdin := [ReadResult.fail] }).map
          (fun r => (r.1.stderr, r.2)) =
        some (w.stderr ++ [Diag.unexpected_error_of_pipe], Ctl.exited EXIT_FAILURE) ∧
      EXIT_FAILURE ≠ EXIT_SUCCESS := by
  refine ⟨?_, ?_, ?_, by decide⟩
  · rw [parse_args_pipe]; rfl
  · rw [parse_args_pipe]; rfl
  · rw [parse_args_pipe]; rfl

/-- C15: on `help` the dispatcher prints the usage through `error`, which exits with the
failure status; the `exit(EXIT_SUCCESS)` that follows the call of `print_help` is never
reached. -/
theorem help_exits_failure (argv : List (List Nat)) (w : World) :
    parse_args (str "help" :: argv) w =
        some ({ w with stderr := w.stderr ++ [Diag.usage] }, Ctl.exited EXIT_FAILURE) ∧
      EXIT_FAILURE ≠ EXIT_SUCCESS := by
  refine ⟨?_, by decide⟩
  cases argv <;> rfl

/-- C16: for every non-empty argument list whose first token is a well-formed string other
than `type`, `send`, `pipe`, `sleep` and `help`, the dispatcher exits with the failure
status after one line on standard error, and sends nothing to the keyboard, whatever
arguments follow. -/
theorem parse_args_unknown (cmd : List Nat) (argv : List (List Nat)) (w : World)
    (hc : CStr cmd)
    (hcmd : cmd ∉ [str "type", str "send", str "pipe", str "sleep", str "help"]) :
    ∃ d, parse_args (cmd :: argv) w =
        some ({ w with stderr := w.stderr ++ [d] }, Ctl.exited EXIT_FAILURE) ∧
      (d = Diag.check_help ∨ d = Diag.invalid_subcommand cmd) := by
  simp only [List.mem_cons, List.mem_singleton, List.not_mem_nil, or_false, not_or] at hcmd
  obtain ⟨h1, h2, h3, h4, h5⟩ := hcmd
  have e1 := strcmp_ne_zero cmd "type" hc (by decide) h1
  have e2 := strcmp_ne_zero cmd "send" hc (by decide) h2
  have e3 := strcmp_ne_zero cmd "pipe" hc (by decide) h3
  have e4 := strcmp_ne_zero cmd "sleep" hc (by decide) h4
  have e5 := strcmp_ne_zero cmd "help" hc (by decide) h5
  cases argv with
  | nil => exact ⟨Diag.check_help, by simp [parse_args, e3, e5, error], Or.inl rfl⟩
  | cons a rest =>
    exact ⟨Diag.invalid_subcommand cmd,
      by simp [parse_args, e1, e2, e3, e4, e5, error], Or.inr rfl⟩

/-- Witness of C16: `key a b` is no operation; nothing is sent and the exit is a failure. -/
theorem parse_args_unknown_witness :
    ∃ d, parse_args [str "key", str "a", str "b"] (World.init (fun n => n) []) =
        some ({ World.init (fun n => n) [] with stderr := [] ++ [d] },
          Ctl.exited EXIT_FAILURE) ∧
      (d = Diag.check_help ∨ d = Diag.invalid_subcommand (str "key")) :=
  parse_args_unknown (str "key") [str "a", str "b"] (World.init (fun n => n) [])
    (by decide) (by decide)

/-! ## The dispatcher: sequences of operations -/

theorem do_type_sent (w : World) (key : wkey) :
    (do_type w key).sent =
      w.sent ++ ([Request.modifiers key.mod 0 0 0] ++
        (if key.key ≠ 0 then [Request.key (w.now w.ticks) key.key KeyState.pressed,
                              Request.key (w.now (w.ticks + 1)) key.key KeyState.released]
         else []) ++
        (if key.mod ≠ MOD_NONE then [Request.modifiers 0 0 0 0] else [])) := by
  unfold do_type
  by_cases h1 : key.key = 0 <;> by_cases h2 : key.mod = MOD_NONE <;>
    simp [World.send, timestamp, h1, h2]

theorem do_type_sent_untimed (w : World) (key : wkey) :
    (do_type w key).sent.map untimed = w.sent.map untimed ++ key_requests key := by
  rw [do_type_sent]
  unfold key_requests
  by_cases h1 : key.key = 0 <;> by_cases h2 : key.mod = MOD_NONE <;>
    simp [untimed, h1, h2]

theorem type_while_sent_untimed (text : List Nat) (w : World) :
    (type_while text w).sent.map untimed =
      w.sent.map untimed ++
        ((text.takeWhile (fun t => t != 0)).map (fun t => key_requests (type_key t))).flatten := by
  induction text generalizing w with
  | nil => simp [type_while]
  | cons t text ih =>
    by_cases ht : t = 0
    · simp [type_while, ht]
    · simp only [type_while, ht, if_false]
      rw [ih, do_type_sent_untimed]
      simp [debug_log, type_key, ht]

theorem parse_args_send (arg : List Nat) (argv : List (List Nat)) (w : World) (key : wkey)
    (h : parse_kbd arg = some (Except.ok key)) :
    parse_args (str "send" :: arg :: argv) w =
      parse_args argv (do_type (debug_log w (Diag.sending key.key key.mod)) key) := by
  have h1 : strcmp (str "send") (str "pipe") ≠ 0 := by decide
  have h2 : strcmp (str "send") (str "help") ≠ 0 := by decide
  have h3 : strcmp (str "send") (str "type") ≠ 0 := by decide
  have h4 : strcmp (str "send") (str "send") = 0 := by decide
  rw [parse_args]
  simp only [h1, h2, h3, h4, if_false, if_true, h]

theorem parse_args_sleep (arg : List Nat) (argv : List (List Nat)) (w : World) :
    parse_args (str "sleep" :: arg :: argv) w =
      parse_args argv
        { w with slept := w.slept ++ [(atoi arg % 4294967296).toNat * 1000 % 4294967296] } := by
  rfl

theorem parse_args_op (op : List Nat × List Nat) (w : World)
    (hop : op.1 = str "type" ∨ op.1 = str "sleep" ∨
      (op.1 = str "send" ∧ ∃ key, parse_kbd op.2 = some (Except.ok key))) :
    ∃ w1, (∀ rest, parse_args (op.1 :: op.2 :: rest) w = parse_args rest w1) ∧
      w1.sent.map untimed = w.sent.map untimed ++ op_trace op.1 op.2 := by
  obtain ⟨cmd, arg⟩ := op
  simp only at hop ⊢
  rcases hop with rfl | rfl | ⟨rfl, key, hkey⟩
  · refine ⟨type_while arg w, fun rest => parse_args_type arg rest w, ?_⟩
    rw [type_while_sent_untimed]
    unfold op_trace
    rw [parse_args_type]
    simp only [parse_args]
    rw [type_while_sent_untimed]
    simp [World.init]
  · refine ⟨_, fun rest => parse_args_sleep arg rest w, ?_⟩
    unfold op_trace
    rw [parse_args_sleep]
    simp [parse_args, World.init]
  · refine ⟨_, fun rest => parse_args_send arg rest w key hkey, ?_⟩
    rw [do_type_sent_untimed]
    unfold op_trace
    rw [parse_args_send arg [] _ key hkey]
    simp only [parse_args]
    rw [do_type_sent_untimed]
    simp [debug_log, World.init]

theorem op_trace_sleep (arg : List Nat) : op_trace (str "sleep") arg = [] := by
  unfold op_trace
  rw [parse_args_sleep]
  simp [parse_args, World.init]

/-- C17: for every argument list made of complete two-token operations `type <text>`,
`send <chord>` and `sleep <ms>` none of which fails, the dispatcher consumes two tokens per
operation, goes on with what follows them, and the trace it produces, time stamps apart,
is the trace before followed by the own traces of the operations in argument order; the own
trace of a `sleep` operation is empty. -/
theorem parse_args_ops_trace (ops : List (List Nat × List Nat)) (w : World)
    (hops : ∀ op ∈ ops, op.1 = str "type" ∨ op.1 = str "sleep" ∨
      (op.1 = str "send" ∧ ∃ key, parse_kbd op.2 = some (Except.ok key))) :
    ∃ w1, (∀ rest, parse_args (argv_of_ops ops ++ rest) w = parse_args rest w1) ∧
      parse_args (argv_of_ops ops) w = some (w1, Ctl.returned) ∧
      (argv_of_ops ops).length = 2 * ops.length ∧
      w1.sent.map untimed =
        w.sent.map untimed ++ (ops.map (fun op => op_trace op.1 op.2)).flatten ∧
      ∀ arg, op_trace (str "sleep") arg = [] := by
  have hmain : ∃ w1, (∀ rest, parse_args (argv_of_ops ops ++ rest) w = parse_args rest w1) ∧
      (argv_of_ops ops).length = 2 * ops.length ∧
      w1.sent.map untimed =
        w.sent.map untimed ++ (ops.map (fun op => op_trace op.1 op.2)).flatten := by
    induction ops generalizing w with
    | nil => exact ⟨w, fun rest => rfl, rfl, by simp⟩
    | cons op ops ih =>
      obtain ⟨w1, hstep, hsent⟩ := parse_args_op op w (hops op (List.mem_cons_self _ _))
      obtain ⟨w2, hrest, hlen, hsent2⟩ := ih w1 (fun o ho => hops o (List.mem_cons_of_mem _ ho))
      refine ⟨w2, fun rest => ?_, ?_, ?_⟩
      · have : argv_of_ops (op :: ops) ++ rest = op.1 :: op.2 :: (argv_of_ops ops ++ rest) := by
          simp [argv_of_ops]
        rw [this, hstep, hrest]
      · simp only [argv_of_ops, List.map_cons, List.flatten_cons, List.length_append,
          List.length_cons, List.length_nil] at hlen ⊢
        omega
      · rw [hsent2, hsent]
        simp
  obtain ⟨w1, h1, h2, h3⟩ := hmain
  refine ⟨w1, h1, ?_, h2, h3, op_trace_sleep⟩
  have := h1 []
  simpa [parse_args] using this

/-- Witness of C17: `type a sleep 250 send C-s` sends the trace of `a`, nothing for the
pause, then the trace of `C-s`. -/
theorem parse_args_ops_trace_witness :
    ∃ w1, parse_args [str "type", str "a", str "sleep", str "250", str "send", str "C-s"]
          (World.init (fun n => n) []) = some (w1, Ctl.returned) ∧
      w1.sent.map untimed =
        [Request.modifiers 0 0 0 0, Request.key 0 30 KeyState.pressed,
         Request.key 0 30 KeyState.released,
         Request.modifiers 4 0 0 0, Request.key 0 31 KeyState.pressed,
         Request.key 0 31 KeyState.released, Request.modifiers 0 0 0 0] :=
  (parse_args_ops_trace
    [(str "type", str "a"), (str "sleep", str "250"), (str "send", str "C-s")]
    (World.init (fun n => n) [])
    (fun op hop => by
      simp only [List.mem_cons, List.mem_singleton, List.not_mem_nil, or_false] at hop
      rcases hop with rfl | rfl | rfl
      · exact Or.inl rfl
      · exact Or.inr (Or.inl rfl)
      · exact Or.inr (Or.inr ⟨rfl, ⟨_, rfl⟩⟩))).imp
    (fun _ h => ⟨h.2.1, h.2.2.2.1⟩)

/-! ## The event sequencer: sequences of events -/

theorem last_mask_append (t1 t2 : List Request) :
    last_mask (t1 ++ t2) =
      t2.foldl (fun m r =>
        match r with
        | Request.modifiers d _ _ _ => some d
        | Request.key _ _ _ => m) (last_mask t1) := by
  unfold last_mask
  rw [List.foldl_append]

/-- C18: for every finite sequence of key events passed one after another to `do_type`, take
any event `k` of it and the events `ks` before it.  The requests `k` adds to the trace are
such that every key request among them carries the code of `k` and is sent while the most
recently sent modifier mask is the mask of `k`, and after the last request of `k` the most
recently sent modifier mask is 0. -/
theorem do_type_seq_masks (w : World) (ks : List wkey) (k : wkey) :
    ∃ added, ((ks ++ [k]).foldl do_type w).sent = (ks.foldl do_type w).sent ++ added ∧
      (∀ i t c s, added[i]? = some (Request.key t c s) →
        c = k.key ∧ last_mask ((ks.foldl do_type w).sent ++ added.take i) = some k.mod) ∧
      last_mask ((ks ++ [k]).foldl do_type w).sent = some 0 := by
  rw [List.foldl_append]
  simp only [List.foldl_cons, List.foldl_nil]
  generalize ks.foldl do_type w = w1
  refine ⟨_, do_type_sent w1 k, ?_, ?_⟩
  · intro i t c s hi
    rw [last_mask_append]
    by_cases h1 : k.key = 0 <;> by_cases h2 : k.mod = MOD_NONE <;>
      simp only [h1, h2, ne_eq, not_true_eq_false, not_false_eq_true, if_true, if_false,
        List.append_nil, List.singleton_append, List.cons_append, List.nil_append] at hi ⊢ <;>
      (rcases i with _ | _ | _ | _ | i <;> simp at hi ⊢ <;> exact hi.2.1.symm)
  · rw [do_type_sent, last_mask_append]
    by_cases h1 : k.key = 0 <;> by_cases h2 : k.mod = 0 <;>
      simp [h1, h2, MOD_NONE]

/-! ## The chord parser: empty tokens -/

theorem tokens_intercalate_tokens (kbd : List Nat) :
    tokens ([delim].intercalate (tokens kbd)) = tokens kbd := by
  by_cases hne : tokens kbd = []
  · rw [hne]; decide
  · rw [tokens_intercalate _ hne (fun t ht => (tokens_mem t ht).2.1)]
    rw [List.filter_eq_self]
    intro t ht
    simpa using (tokens_mem t ht).1

theorem parse_tokens_ok_key (ptr : List Nat) (rest : List (List Nat)) (key k : wkey)
    (h : parse_tokens ptr rest key = Except.ok k) :
    ∃ t ∈ ptr :: rest, k.key = key_of_token t := by
  induction rest generalizing ptr key with
  | nil =>
    simp only [parse_tokens, Except.ok.injEq] at h
    exact ⟨ptr, List.mem_cons_self _ _, by rw [← h]⟩
  | cons next more ih =>
    by_cases hmod : name_to_mod ptr = MOD_NONE
    · simp [parse_tokens, hmod] at h
    · simp only [parse_tokens, hmod, if_false] at h
      obtain ⟨t, ht, hk⟩ := ih next _ h
      exact ⟨t, List.mem_cons_of_mem _ ht, hk⟩

set_option maxRecDepth 100000 in
theorem Charmap_eq_12 : ∀ c < 256, Charmap c = 12 → c = 45 := by
  decide

theorem keyname_to_keycode_ne_12 (t : List Nat) : keyname_to_keycode t ≠ 12 := by
  unfold keyname_to_keycode
  cases hf : Keymap.find? (fun e => strcasecmp e.1 t == 0) with
  | none => simp
  | some e =>
    have hmem := List.mem_of_find?_eq_some hf
    have hall : ∀ e ∈ Keymap, e.2 ≠ 12 := by decide
    exact hall e hmem

theorem key_of_token_ne_12 (t : List Nat) (hne : t ≠ []) (hd : delim ∉ t)
    (hb : ∀ b ∈ t, b < 256) : key_of_token t ≠ 12 := by
  unfold key_of_token
  split
  · cases t with
    | nil => exact absurd rfl hne
    | cons c cs =>
      have hc : c < 256 := hb c (List.mem_cons_self _ _)
      have hcd : c ≠ 45 := fun h => hd (h ▸ List.mem_cons_self _ _)
      simp only [List.getD_cons_zero, Nat.mod_eq_of_lt hc]
      exact fun h => hcd (Charmap_eq_12 c hc h)
  · exact keyname_to_keycode_ne_12 t

/-- C20: `parse_kbd` never gets an empty token from `strtok`: leading, trailing and repeated
delimiters are skipped, so for every well-formed string the result is the result for the
same string with the empty tokens removed, and no chord expression yields the code 12 of
the hyphen key. -/
theorem parse_kbd_skips_empty (kbd : List Nat) (h : CStr kbd) :
    (∀ t ∈ tokens kbd, t ≠ []) ∧
      (∀ s t r, strtok s = some (t, r) → t ≠ []) ∧
      parse_kbd kbd = parse_kbd ([delim].intercalate (tokens kbd)) ∧
      (∀ key, parse_kbd kbd = some (Except.ok key) → key.key ≠ 12) ∧
      Charmap delim = 12 := by
  refine ⟨fun t ht => (tokens_mem t ht).1, fun s t r hs => (strtok_some hs).2.1, ?_, ?_,
    by decide⟩
  · rw [parse_kbd_eq, parse_kbd_eq, tokens_intercalate_tokens]
  · intro key hkey
    rw [parse_kbd_eq] at hkey
    cases htk : tokens kbd with
    | nil =>
      simp only [htk, Option.some.injEq, Except.ok.injEq] at hkey
      rw [← hkey]; decide
    | cons t ts =>
      simp only [htk, Option.some.injEq] at hkey
      obtain ⟨t1, ht1, hk⟩ := parse_tokens_ok_key t ts _ key hkey
      have hmem : t1 ∈ tokens kbd := htk ▸ ht1
      obtain ⟨hne, hd, hsub⟩ := tokens_mem t1 hmem
      rw [hk]
      exact key_of_token_ne_12 t1 hne hd (fun b hb => (h b (hsub b hb)).2)

/-- Witness of C20: `C--s` and `-C-s-` parse as `C-s`, and the empty expression and `-`
yield code 0 and mask 0. -/
theorem parse_kbd_skips_empty_witness :
    parse_kbd (str "C--s") = parse_kbd (str "C-s") ∧
      parse_kbd (str "-C-s-") = parse_kbd (str "C-s") ∧
      parse_kbd (str "-") = parse_kbd (str "") ∧
      parse_kbd (str "") = some (Except.ok { key := 0, mod := 0 }) ∧
      ∀ key, parse_kbd (str "C--s") = some (Except.ok key) → key.key ≠ 12 :=
  ⟨(parse_kbd_skips_empty (str "C--s") (by decide)).2.2.1,
   (parse_kbd_skips_empty (str "-C-s-") (by decide)).2.2.1,
   (parse_kbd_skips_empty (str "-") (by decide)).2.2.1,
   by decide,
   (parse_kbd_skips_empty (str "C--s") (by decide)).2.2.2.1⟩

end VirtualKbd
